import Mathlib

/-!
Shallow embedding of the DRP cut API core (`cuts_model.py`, `cuts_transform.py`
and the property helpers of `resolve_parse.py`): clip property access over a
heap of XML clip elements, clip-pair matching, boundary detection, and the
J/L cut transforms, together with proofs of the specified properties.

Clip elements are mutated in place in the source, and distinct clip pairs may
reference the same element, so the embedding threads an explicit store mapping
element references to element values.
-/

/-- Decimal digit character for a value below ten (ASCII 48 to 57). -/
def digitChar (n : Nat) : Char := Char.ofNat (n + 48)

/-- Digit characters of a natural number, most significant first, pushed onto
`acc`; `fuel` bounds the recursion and is always supplied large enough. -/
def natToDigitsAux : Nat → Nat → List Char → List Char
  | 0, _, acc => acc
  | fuel + 1, n, acc =>
    if n < 10 then digitChar n :: acc
    else natToDigitsAux fuel (n / 10) (digitChar (n % 10) :: acc)

/-- Decimal digit characters of a natural number, most significant first. -/
def natToDigits (n : Nat) : List Char := natToDigitsAux (n + 1) n []

/-- Decimal rendering of a natural number, as Python `str`. -/
def natToStr (n : Nat) : String := String.mk (natToDigits n)

/-- Decimal rendering of an integer, as Python `str` on an `int`. -/
def intToStr (i : Int) : String :=
  if i < 0 then String.mk ('-' :: natToDigits i.natAbs) else String.mk (natToDigits i.natAbs)

/-- Decimal digit test (ASCII 48 to 57). -/
def isDigitChar (c : Char) : Bool := 48 ≤ c.toNat && c.toNat ≤ 57

/-- Numeric value of a decimal digit character. -/
def digitVal (c : Char) : Nat := c.toNat - 48

/-- Accumulating left-to-right decimal parse; fails on a non-digit. -/
def parseDigitsAux : List Char → Nat → Option Nat
  | [], acc => some acc
  | c :: cs, acc => if isDigitChar c then parseDigitsAux cs (acc * 10 + digitVal c) else none

/-- Parse of a nonempty all-digit string (the digits part of Python `int`). -/
def parseDigits : List Char → Option Nat
  | [] => none
  | l => parseDigitsAux l 0

/-- Whitespace characters stripped by Python `int` (ASCII subset). -/
def isPySpace (c : Char) : Bool := c.toNat == 32 || (9 ≤ c.toNat && c.toNat ≤ 13)

/-- Strip leading and trailing whitespace. -/
def stripWS (l : List Char) : List Char :=
  ((l.dropWhile isPySpace).reverse.dropWhile isPySpace).reverse

/-- Sign-and-digits part of Python `int` parsing. -/
def pyParseIntChars : List Char → Option Int
  | [] => none
  | c :: rest =>
    if c = '-' then (parseDigits rest).map (fun n => -(Int.ofNat n))
    else if c = '+' then (parseDigits rest).map (fun n => Int.ofNat n)
    else (parseDigits (c :: rest)).map (fun n => Int.ofNat n)

/-- Python `int(text)` on a string: optional surrounding whitespace, optional
sign, decimal digits; `none` when the text is not a valid integer literal.
(Underscore digit separators, accepted by Python, are not modelled; no claim
depends on them.) -/
def pyParseInt (s : String) : Option Int := pyParseIntChars (stripWS s.toList)

/-- An XML clip element (`Sm2TiVideoClip` or `Sm2TiAudioClip`): its ordered
child elements, each a tag paired with its optional text (`none` models a
self-closing child whose `.text` is `None`). -/
structure Clip where
  children : List (String × Option String)
deriving DecidableEq

/-- Reference to a clip element in the heap. -/
abbrev ClipRef := Nat

/-- Heap of clip elements: the source mutates elements in place through shared
references, so the embedding passes this store explicitly. -/
abbrev Store := ClipRef → Clip

/-- First child with the given tag, as `ElementTree` `clip.find(name)`. -/
def findChild : List (String × Option String) → String → Option (Option String)
  | [], _ => none
  | (n, t) :: rest, name => if n = name then some t else findChild rest name

/-- Translation of `resolve_parse.get_clip_property`: `none` when the child is
missing, its text with `None` read as `""` otherwise. -/
def get_clip_property (clip : Clip) (property_name : String) : Option String :=
  match findChild clip.children property_name with
  | none => none
  | some t => some (t.getD "")

/-- Replace the text of the first child with the given tag; no-op when the
child is absent (as the guarded mutation in `set_clip_property`). -/
def setChildText : List (String × Option String) → String → String → List (String × Option String)
  | [], _, _ => []
  | (n, t) :: rest, name, value =>
    if n = name then (n, some value) :: rest else (n, t) :: setChildText rest name value

/-- Translation of `resolve_parse.set_clip_property`: the element is mutated in
place in Python, so the embedding updates the store at the reference. -/
def set_clip_property (σ : Store) (r : ClipRef) (property_name value : String) : Store :=
  fun r2 => if r2 = r then ⟨setChildText (σ r).children property_name value⟩ else σ r2

/-- Translation of `resolve_parse.parse_int_property`: default for a missing
or empty property, and on `int(...)` parse failure. -/
def parse_int_property (clip : Clip) (property_name : String) (default : Int) : Int :=
  match get_clip_property clip property_name with
  | none => default
  | some value =>
    if value = "" then default
    else match pyParseInt value with
      | none => default
      | some i => i

/-- Translation of `cuts_model.ClipPair`: matched video/audio clip references
plus the denormalized snapshot taken from the video side at match time. -/
structure ClipPair where
  video_clip : ClipRef
  audio_clip : ClipRef
  name : String
  start : Int
  duration : Int
  in_point : Int
  media_ref : String
deriving DecidableEq

/-- Translation of `cuts_model.Boundary`. -/
structure Boundary where
  clip_pair_before : ClipPair
  clip_pair_after : ClipPair
  cut_frame : Int
deriving DecidableEq

/-- Match key `(Name, MediaRef, Start)` of a clip element, with the source's
`get_clip_property(...) or ""` defaulting for the string fields. -/
def clipKey (clip : Clip) : String × String × Int :=
  ((get_clip_property clip "Name").getD "",
   (get_clip_property clip "MediaRef").getD "",
   parse_int_property clip "Start" 0)

/-- Keys of the audio lookup dict. -/
abbrev MatchKey := String × String × Int

/-- Association-list model of a Python dict assignment: replace the existing
entry for the key in place (last write wins) or append a new entry. -/
def dictInsert : List (MatchKey × ClipRef) → MatchKey → ClipRef → List (MatchKey × ClipRef)
  | [], k, v => [(k, v)]
  | (k2, v2) :: rest, k, v =>
    if k2 = k then (k2, v) :: rest else (k2, v2) :: dictInsert rest k v

/-- Association-list model of a Python dict read. -/
def dictGet : List (MatchKey × ClipRef) → MatchKey → Option ClipRef
  | [], _ => none
  | (k2, v2) :: rest, k => if k2 = k then some v2 else dictGet rest k

/-- Audio lookup built by the first loop of `cuts_model.find_clip_pairs`. -/
def buildAudioLookup (σ : Store) (audio_clips : List ClipRef) : List (MatchKey × ClipRef) :=
  audio_clips.foldl (fun d a => dictInsert d (clipKey (σ a)) a) []

/-- Stable insertion step by `start`: walk past strictly smaller keys so that
an earlier element lands before later elements with an equal key. -/
def insertByStart (p : ClipPair) : List ClipPair → List ClipPair
  | [] => [p]
  | q :: rest => if q.start < p.start then q :: insertByStart p rest else p :: q :: rest

/-- Stable sort by `start`, modelling `pairs.sort(key=lambda p: p.start)`. -/
def sortByStart (l : List ClipPair) : List ClipPair := l.foldr insertByStart []

/-- Translation of `cuts_model.find_clip_pairs`. -/
def find_clip_pairs (σ : Store) (video_clips audio_clips : List ClipRef) : List ClipPair :=
  let audio_lookup := buildAudioLookup σ audio_clips
  let pairs := video_clips.filterMap (fun video_clip =>
    let name := (get_clip_property (σ video_clip) "Name").getD ""
    let media_ref := (get_clip_property (σ video_clip) "MediaRef").getD ""
    let start := parse_int_property (σ video_clip) "Start" 0
    let duration := parse_int_property (σ video_clip) "Duration" 0
    let in_point := parse_int_property (σ video_clip) "In" 0
    match dictGet audio_lookup (name, media_ref, start) with
    | some audio_clip => some ⟨video_clip, audio_clip, name, start, duration, in_point, media_ref⟩
    | none => none)
  sortByStart pairs

/-- Translation of `cuts_model.is_aligned`. -/
def is_aligned (σ : Store) (clip_pair : ClipPair) : Bool :=
  let v_start := parse_int_property (σ clip_pair.video_clip) "Start" 0
  let a_start := parse_int_property (σ clip_pair.audio_clip) "Start" 0
  let v_duration := parse_int_property (σ clip_pair.video_clip) "Duration" 0
  let a_duration := parse_int_property (σ clip_pair.audio_clip) "Duration" 0
  let v_in := parse_int_property (σ clip_pair.video_clip) "In" 0
  let a_in := parse_int_property (σ clip_pair.audio_clip) "In" 0
  decide (v_start = a_start ∧ v_duration = a_duration ∧ v_in = a_in)

/-- Translation of `cuts_model.find_eligible_boundaries` (index loop over
consecutive pairs rendered as structural recursion). -/
def find_eligible_boundaries (σ : Store) : List ClipPair → Int → List Boundary
  | current_pair :: next_pair :: rest, max_gap =>
    let tail := find_eligible_boundaries σ (next_pair :: rest) max_gap
    if is_aligned σ current_pair then
      if is_aligned σ next_pair then
        let cut_frame := current_pair.start + current_pair.duration
        let gap := next_pair.start - cut_frame
        if 0 ≤ gap ∧ gap ≤ max_gap then
          ⟨current_pair, next_pair, cut_frame⟩ :: tail
        else tail
      else tail
    else tail
  | _, _ => []

/-- Translation of `cuts_model.validate_boundary_for_offset`. -/
def validate_boundary_for_offset (σ : Store) (boundary : Boundary) (offset : Int) : Bool × String :=
  let min_duration := offset * 2
  if boundary.clip_pair_before.duration < min_duration then
    (false, "Clip before (" ++ boundary.clip_pair_before.name ++ ") too short for offset " ++ intToStr offset)
  else if boundary.clip_pair_after.duration < min_duration then
    (false, "Clip after (" ++ boundary.clip_pair_after.name ++ ") too short for offset " ++ intToStr offset)
  else
    let after_new_start := boundary.clip_pair_after.start - offset
    if after_new_start < 0 then
      (false, "Offset would push next clip start below 0")
    else
      let after_in := parse_int_property (σ boundary.clip_pair_after.audio_clip) "In" 0
      let after_new_in := after_in - offset
      if after_new_in < 0 then
        (false, "Offset would push next clip in point below 0")
      else (true, "")

/-- Translation of `cuts_transform.apply_j_cut`: returns the store after the
call together with the source's `(success, message)` pair. -/
def apply_j_cut (σ : Store) (boundary : Boundary) (offset : Int) (dry_run : Bool) : Store × Bool × String :=
  if offset ≤ 0 then (σ, false, "Offset must be positive")
  else
    let audio_clip := boundary.clip_pair_after.audio_clip
    let current_start := parse_int_property (σ audio_clip) "Start" 0
    let current_duration := parse_int_property (σ audio_clip) "Duration" 0
    let current_in := parse_int_property (σ audio_clip) "In" 0
    let new_start := current_start - offset
    let new_duration := current_duration + offset
    let new_in := current_in - offset
    if new_start < 0 then
      (σ, false, "J-cut would push Start below 0 (new Start=" ++ intToStr new_start ++ ")")
    else if new_in < 0 then
      (σ, false, "J-cut would push In below 0 (new In=" ++ intToStr new_in ++ "). Clip may not have enough source media before the cut point.")
    else if current_duration < offset then
      (σ, false, "Clip too short for offset " ++ intToStr offset ++ " (duration=" ++ intToStr current_duration ++ ")")
    else
      let σ2 :=
        if dry_run then σ
        else
          set_clip_property
            (set_clip_property
              (set_clip_property σ audio_clip "Start" (intToStr new_start))
              audio_clip "Duration" (intToStr new_duration))
            audio_clip "In" (intToStr new_in)
      let clip_name := boundary.clip_pair_after.name
      (σ2, true,
        "J-cut applied to " ++ clip_name ++ ": Start " ++ intToStr current_start ++ " to " ++ intToStr new_start
          ++ ", Duration " ++ intToStr current_duration ++ " to " ++ intToStr new_duration
          ++ ", In " ++ intToStr current_in ++ " to " ++ intToStr new_in)

/-- Translation of `cuts_transform.apply_l_cut`. -/
def apply_l_cut (σ : Store) (boundary : Boundary) (offset : Int) (dry_run : Bool) : Store × Bool × String :=
  if offset ≤ 0 then (σ, false, "Offset must be positive")
  else
    let audio_clip := boundary.clip_pair_before.audio_clip
    let current_duration := parse_int_property (σ audio_clip) "Duration" 0
    let new_duration := current_duration + offset
    if current_duration < 1 then
      (σ, false, "Clip too short (duration=" ++ intToStr current_duration ++ ")")
    else
      let σ2 :=
        if dry_run then σ
        else set_clip_property σ audio_clip "Duration" (intToStr new_duration)
      let clip_name := boundary.clip_pair_before.name
      (σ2, true, "L-cut applied to " ++ clip_name ++ ": Duration " ++ intToStr current_duration ++ " to " ++ intToStr new_duration)

/-- Translation of `cuts_transform.validate_j_cut`. -/
def validate_j_cut (σ : Store) (boundary : Boundary) (offset : Int) : Store × Bool × String :=
  apply_j_cut σ boundary offset true

/-- Translation of `cuts_transform.validate_l_cut`. -/
def validate_l_cut (σ : Store) (boundary : Boundary) (offset : Int) : Store × Bool × String :=
  apply_l_cut σ boundary offset true

/-- Uppercasing of one character, as Python `str.upper` on ASCII (the cut
kind tokens are ASCII; Unicode case mapping is not modelled). -/
def pyUpperChar (c : Char) : Char :=
  if 97 ≤ c.toNat ∧ c.toNat ≤ 122 then Char.ofNat (c.toNat - 32) else c

/-- Python `cut_type.upper()`. -/
def pyUpper (s : String) : String := String.mk (s.toList.map pyUpperChar)

/-- Results dictionary of `cuts_transform.apply_cuts_to_timeline`. -/
structure CutResults where
  success_count : Nat
  fail_count : Nat
  messages : List String
  successful_boundaries : List Boundary
deriving DecidableEq

/-- Loop body of `apply_cuts_to_timeline`: `i` is the zero-based enumeration
index, `results` the accumulated dictionary. -/
def applyCutsLoop (cut_function : Store → Boundary → Store × Bool × String) :
    Store → List Boundary → Nat → CutResults → Store × CutResults
  | σ, [], _, results => (σ, results)
  | σ, boundary :: rest, i, results =>
    let boundary_num := i + 1
    let step := cut_function σ boundary
    let results2 :=
      if step.2.1 then
        { success_count := results.success_count + 1
          fail_count := results.fail_count
          messages := results.messages ++ ["  ✓ Boundary " ++ natToStr boundary_num ++ ": " ++ step.2.2]
          successful_boundaries := results.successful_boundaries ++ [boundary] }
      else
        { success_count := results.success_count
          fail_count := results.fail_count + 1
          messages := results.messages ++ ["  ✗ Boundary " ++ natToStr boundary_num ++ ": " ++ step.2.2]
          successful_boundaries := results.successful_boundaries }
    applyCutsLoop cut_function step.1 rest (i + 1) results2

/-- Translation of `cuts_transform.apply_cuts_to_timeline`. -/
def apply_cuts_to_timeline (σ : Store) (boundaries : List Boundary) (offset : Int)
    (cut_type : String) (dry_run : Bool) : Store × CutResults :=
  let cut_function :=
    if pyUpper cut_type = "J" then (fun σ2 b => apply_j_cut σ2 b offset dry_run)
    else (fun σ2 b => apply_l_cut σ2 b offset dry_run)
  applyCutsLoop cut_function σ boundaries 0 ⟨0, 0, [], []⟩

/-- Validation predicate of `apply_j_cut` as a function of the target audio
clip value (proved below to characterize the transform's verdict). -/
def jValidB (c : Clip) (offset : Int) : Bool :=
  decide (0 < offset ∧ 0 ≤ parse_int_property c "Start" 0 - offset ∧
    0 ≤ parse_int_property c "In" 0 - offset ∧ offset ≤ parse_int_property c "Duration" 0)

/-- Clip value written by a successful non-dry `apply_j_cut`. -/
def jNewClip (c : Clip) (offset : Int) : Clip :=
  ⟨setChildText
    (setChildText
      (setChildText c.children "Start" (intToStr (parse_int_property c "Start" 0 - offset)))
      "Duration" (intToStr (parse_int_property c "Duration" 0 + offset)))
    "In" (intToStr (parse_int_property c "In" 0 - offset))⟩

/-- Validation predicate of `apply_l_cut` as a function of the target audio
clip value. -/
def lValidB (c : Clip) (offset : Int) : Bool :=
  decide (0 < offset ∧ 1 ≤ parse_int_property c "Duration" 0)

/-- Clip value written by a successful non-dry `apply_l_cut`. -/
def lNewClip (c : Clip) (offset : Int) : Clip :=
  ⟨setChildText c.children "Duration" (intToStr (parse_int_property c "Duration" 0 + offset))⟩

/-- Per-boundary success verdicts of a batch run, threading the store. -/
def verdictCount (cf : Store → Boundary → Store × Bool × String) : Store → List Boundary → Nat
  | _, [] => 0
  | σ, b :: rest =>
    (if (cf σ b).2.1 then 1 else 0) + verdictCount cf (cf σ b).1 rest

/-- Final store of a batch run. -/
def runStore (cf : Store → Boundary → Store × Bool × String) : Store → List Boundary → Store
  | σ, [] => σ
  | σ, b :: rest => runStore cf (cf σ b).1 rest

/-! ### Concrete inputs used by witnesses and counterexamples -/

/-- Well-formed audio/video clip element used by witnesses. -/
def cMain : Clip :=
  ⟨[("Name", some "c"), ("MediaRef", some "m"), ("Start", some "100"),
    ("Duration", some "50"), ("In", some "20")]⟩

/-- Store mapping every reference to `cMain`. -/
def wStore : Store := fun _ => cMain

def wPair : ClipPair := ⟨0, 1, "c", 100, 50, 20, "m"⟩

def wBoundary : Boundary := ⟨wPair, wPair, 150⟩

def wBoundary2 : Boundary := ⟨wPair, wPair, 151⟩

/-- Clip element whose `Start` is already negative. -/
def cNeg : Clip :=
  ⟨[("Name", some "c"), ("MediaRef", some "m"), ("Start", some "-5"),
    ("Duration", some "5"), ("In", some "0")]⟩

def negStore : Store := fun _ => cNeg

def negBoundary : Boundary := ⟨⟨0, 1, "c", -5, 5, 0, "m"⟩, ⟨2, 3, "c", 5, 5, 0, "m"⟩, 0⟩

/-- Clip element with `Start` 0; used with a stale snapshot `start` of 100. -/
def cZeroStart : Clip :=
  ⟨[("Name", some "a"), ("MediaRef", some "m"), ("Start", some "0"),
    ("Duration", some "100"), ("In", some "20")]⟩

def mismatchStore : Store := fun _ => cZeroStart

/-- Boundary whose after-pair snapshot `start` (100) disagrees with the
current `Start` (0) of its clips. -/
def mismatchBoundary : Boundary :=
  ⟨⟨0, 1, "bef", 0, 100, 20, "m"⟩, ⟨2, 3, "aft", 100, 100, 20, "m"⟩, 100⟩

/-- Clip element with `Start` 100 matching the snapshot below. -/
def cStart100 : Clip :=
  ⟨[("Name", some "a"), ("MediaRef", some "m"), ("Start", some "100"),
    ("Duration", some "100"), ("In", some "20")]⟩

def consistentStore : Store := fun _ => cStart100

def consistentBoundary : Boundary :=
  ⟨⟨0, 1, "bef", 100, 100, 20, "m"⟩, ⟨2, 3, "aft", 100, 100, 20, "m"⟩, 200⟩

/-! ### Decimal round trip: parsing back a rendered integer -/

theorem natToDigitsAux_acc (fuel : Nat) :
    ∀ n acc, natToDigitsAux fuel n acc = natToDigitsAux fuel n [] ++ acc := by
  induction fuel with
  | zero => intro n acc; simp [natToDigitsAux]
  | succ fuel ih =>
    intro n acc
    by_cases h : n < 10
    · simp [natToDigitsAux, h]
    · simp only [natToDigitsAux, if_neg h]
      rw [ih (n / 10) (digitChar (n % 10) :: acc), ih (n / 10) [digitChar (n % 10)]]
      simp

theorem natToDigitsAux_ne_nil : ∀ fuel n acc, acc ≠ [] → natToDigitsAux fuel n acc ≠ [] := by
  intro fuel
  induction fuel with
  | zero => intro n acc h; simpa [natToDigitsAux] using h
  | succ fuel ih =>
    intro n acc h
    by_cases h2 : n < 10
    · simp [natToDigitsAux, h2]
    · simp only [natToDigitsAux, if_neg h2]
      exact ih (n / 10) _ (by simp)

theorem natToDigits_ne_nil (n : Nat) : natToDigits n ≠ [] := by
  unfold natToDigits natToDigitsAux
  by_cases h : n < 10
  · simp [h]
  · simp only [if_neg h]
    exact natToDigitsAux_ne_nil n (n / 10) _ (by simp)

theorem digitChar_facts {d : Nat} (h : d < 10) :
    isDigitChar (digitChar d) = true ∧ digitVal (digitChar d) = d := by
  interval_cases d <;> exact ⟨by decide, by decide⟩

theorem parseDigitsAux_append (l1 l2 : List Char) :
    ∀ acc, parseDigitsAux (l1 ++ l2) acc =
      match parseDigitsAux l1 acc with
      | some m => parseDigitsAux l2 m
      | none => none := by
  induction l1 with
  | nil => intro acc; simp [parseDigitsAux]
  | cons c cs ih =>
    intro acc
    by_cases h : isDigitChar c = true <;> simp [parseDigitsAux, h, ih]

theorem parseDigitsAux_natToDigitsAux :
    ∀ fuel n, n < fuel → parseDigitsAux (natToDigitsAux fuel n []) 0 = some n := by
  intro fuel
  induction fuel with
  | zero => omega
  | succ fuel ih =>
    intro n hn
    by_cases h : n < 10
    · have hd := digitChar_facts h
      simp [natToDigitsAux, h, parseDigitsAux, hd.1, hd.2]
    · simp only [natToDigitsAux, if_neg h]
      rw [natToDigitsAux_acc]
      rw [parseDigitsAux_append]
      have hlt : n / 10 < fuel := by omega
      rw [ih (n / 10) hlt]
      have hd := digitChar_facts (Nat.mod_lt n (by omega) : n % 10 < 10)
      simp [parseDigitsAux, hd.1, hd.2]
      omega

theorem parseDigits_eq_aux {l : List Char} (h : l ≠ []) : parseDigits l = parseDigitsAux l 0 := by
  cases l with
  | nil => exact absurd rfl h
  | cons c cs => rfl

theorem parseDigits_natToDigits (n : Nat) : parseDigits (natToDigits n) = some n := by
  rw [parseDigits_eq_aux (natToDigits_ne_nil n)]
  exact parseDigitsAux_natToDigitsAux (n + 1) n (by omega)

theorem parseDigitsAux_all_digits :
    ∀ (l : List Char) (acc m : Nat), parseDigitsAux l acc = some m → ∀ c ∈ l, isDigitChar c = true := by
  intro l
  induction l with
  | nil => intro acc m _ c hc; simp at hc
  | cons c2 cs ih =>
    intro acc m hp c hc
    by_cases h : isDigitChar c2 = true
    · rcases List.mem_cons.mp hc with hh | ht
      · rwa [hh]
      · simp only [parseDigitsAux, if_pos h] at hp
        exact ih _ m hp c ht
    · simp [parseDigitsAux, h] at hp

theorem natToDigits_all_digits (n : Nat) : ∀ c ∈ natToDigits n, isDigitChar c = true := by
  have h := parseDigits_natToDigits n
  rw [parseDigits_eq_aux (natToDigits_ne_nil n)] at h
  exact parseDigitsAux_all_digits _ _ _ h

theorem not_space_of_digit {c : Char} (h : isDigitChar c = true) : isPySpace c = false := by
  simp only [isDigitChar, Bool.and_eq_true, decide_eq_true_eq] at h
  cases hb : isPySpace c
  · rfl
  · exfalso
    simp only [isPySpace, Bool.or_eq_true, Bool.and_eq_true, beq_iff_eq, decide_eq_true_eq] at hb
    omega

theorem dropWhile_eq_self_of_not {p : Char → Bool} {l : List Char}
    (h : ∀ c ∈ l, p c = false) : l.dropWhile p = l := by
  cases l with
  | nil => rfl
  | cons c cs => simp [List.dropWhile_cons, h c (by simp)]

theorem stripWS_eq_self {l : List Char} (h : ∀ c ∈ l, isPySpace c = false) : stripWS l = l := by
  unfold stripWS
  rw [dropWhile_eq_self_of_not h,
    dropWhile_eq_self_of_not (fun c hc => h c (List.mem_reverse.mp hc)), List.reverse_reverse]

theorem toList_mk (l : List Char) : (String.mk l).toList = l := rfl

theorem pyParseInt_intToStr (i : Int) : pyParseInt (intToStr i) = some i := by
  have hdig : ∀ c ∈ natToDigits i.natAbs, isDigitChar c = true := natToDigits_all_digits i.natAbs
  by_cases hi : i < 0
  · rw [intToStr, if_pos hi]
    unfold pyParseInt
    rw [toList_mk]
    rw [stripWS_eq_self (by
      intro c hc
      rcases List.mem_cons.mp hc with hh | ht
      · rw [hh]; decide
      · exact not_space_of_digit (hdig c ht))]
    rw [pyParseIntChars, if_pos rfl, parseDigits_natToDigits]
    simp only [Option.map_some']
    congr 1
    simp only [Int.ofNat_eq_coe]
    omega
  · rw [intToStr, if_neg hi]
    unfold pyParseInt
    rw [toList_mk]
    rw [stripWS_eq_self (fun c hc => not_space_of_digit (hdig c hc))]
    obtain ⟨c, rest, hl⟩ := List.exists_cons_of_ne_nil (natToDigits_ne_nil i.natAbs)
    have hc : isDigitChar c = true := by
      apply hdig; rw [hl]; simp
    have hcm : c ≠ '-' := by
      intro h; rw [h] at hc; simp [isDigitChar] at hc
    have hcp : c ≠ '+' := by
      intro h; rw [h] at hc; simp [isDigitChar] at hc
    rw [hl, pyParseIntChars, if_neg hcm, if_neg hcp, ← hl, parseDigits_natToDigits]
    simp only [Option.map_some']
    congr 1
    simp only [Int.ofNat_eq_coe]
    omega

theorem intToStr_ne_empty (i : Int) : intToStr i ≠ "" := by
  unfold intToStr
  by_cases hi : i < 0 <;> simp only [hi, if_pos, if_neg, if_true, if_false]
  · intro h
    have : ('-' :: natToDigits i.natAbs) = "".toList := by rw [← h]; rfl
    simp at this
  · intro h
    have : natToDigits i.natAbs = "".toList := by rw [← h]; rfl
    exact natToDigits_ne_nil i.natAbs (by simpa using this)

/-! ### Child access and update lemmas -/

theorem findChild_setChildText_same (l : List (String × Option String)) (name value : String) :
    findChild (setChildText l name value) name = (findChild l name).map (fun _ => some value) := by
  induction l with
  | nil => simp [setChildText, findChild]
  | cons p rest ih =>
    obtain ⟨n, t⟩ := p
    by_cases h : n = name
    · simp [setChildText, findChild, h]
    · simp [setChildText, findChild, h, ih]

theorem findChild_setChildText_other (l : List (String × Option String)) {name p : String}
    (value : String) (h : p ≠ name) :
    findChild (setChildText l name value) p = findChild l p := by
  induction l with
  | nil => simp [setChildText]
  | cons q rest ih =>
    obtain ⟨n, t⟩ := q
    by_cases h2 : n = name
    · subst h2
      have hnp : ¬ n = p := fun hh => h hh.symm
      simp [setChildText, findChild, hnp]
    · simp [setChildText, findChild, h2, ih]

theorem get_setChildText_same {c : Clip} {name : String} (value : String)
    (h : (findChild c.children name).isSome = true) :
    get_clip_property ⟨setChildText c.children name value⟩ name = some value := by
  obtain ⟨t, ht⟩ := Option.isSome_iff_exists.mp h
  unfold get_clip_property
  rw [findChild_setChildText_same, ht]
  rfl

theorem get_setChildText_other {c : Clip} {name p : String} (value : String) (h : p ≠ name) :
    get_clip_property ⟨setChildText c.children name value⟩ p = get_clip_property c p := by
  unfold get_clip_property
  rw [findChild_setChildText_other _ _ h]

theorem parse_congr {c1 c2 : Clip} {name : String}
    (h : get_clip_property c1 name = get_clip_property c2 name) (d : Int) :
    parse_int_property c1 name d = parse_int_property c2 name d := by
  unfold parse_int_property
  rw [h]

theorem parse_setChildText_same {c : Clip} {name : String} (k : Int)
    (h : (findChild c.children name).isSome = true) :
    parse_int_property ⟨setChildText c.children name (intToStr k)⟩ name 0 = k := by
  unfold parse_int_property
  rw [get_setChildText_same (intToStr k) h]
  simp [intToStr_ne_empty, pyParseInt_intToStr]

theorem parse_setChildText_other {c : Clip} {name p : String} (value : String) (h : p ≠ name) (d : Int) :
    parse_int_property ⟨setChildText c.children name value⟩ p d = parse_int_property c p d :=
  parse_congr (get_setChildText_other value h) d

theorem findChild_none_parse {c : Clip} {name : String} (h : findChild c.children name = none)
    (d : Int) : parse_int_property c name d = d := by
  unfold parse_int_property get_clip_property
  rw [h]

theorem findChild_isSome_of_parse_pos {c : Clip} {name : String}
    (h : parse_int_property c name 0 ≠ 0) : (findChild c.children name).isSome = true := by
  by_contra h2
  exact h (findChild_none_parse (Option.not_isSome_iff_eq_none.mp (by simpa using h2)) 0)

theorem findChild_setChildText_isSome (l : List (String × Option String)) (name value p : String) :
    (findChild (setChildText l name value) p).isSome = (findChild l p).isSome := by
  by_cases h : p = name
  · subst h
    rw [findChild_setChildText_same]
    simp
  · rw [findChild_setChildText_other _ _ h]

/-! ### Characterization of the two transforms -/

theorem apply_j_cut_verdict (σ : Store) (b : Boundary) (o : Int) (dr : Bool) :
    (apply_j_cut σ b o dr).2.1 = jValidB (σ b.clip_pair_after.audio_clip) o := by
  rw [jValidB]
  simp only [apply_j_cut]
  split_ifs with h1 h2 h3 h4 <;>
    first
      | (symm; rw [decide_eq_false_iff_not]; omega)
      | (symm; rw [decide_eq_true_eq]; exact ⟨by omega, by omega, by omega, by omega⟩)

theorem apply_l_cut_verdict (σ : Store) (b : Boundary) (o : Int) (dr : Bool) :
    (apply_l_cut σ b o dr).2.1 = lValidB (σ b.clip_pair_before.audio_clip) o := by
  rw [lValidB]
  simp only [apply_l_cut]
  split_ifs with h1 h2 <;>
    first
      | (symm; rw [decide_eq_false_iff_not]; omega)
      | (symm; rw [decide_eq_true_eq]; exact ⟨by omega, by omega⟩)

theorem apply_j_cut_store (σ : Store) (b : Boundary) (o : Int) (dr : Bool) (r : ClipRef) :
    (apply_j_cut σ b o dr).1 r =
      if r = b.clip_pair_after.audio_clip ∧ dr = false ∧
          jValidB (σ b.clip_pair_after.audio_clip) o = true
      then jNewClip (σ b.clip_pair_after.audio_clip) o
      else σ r := by
  by_cases hv : jValidB (σ b.clip_pair_after.audio_clip) o = true
  · have hv2 := hv
    rw [jValidB, decide_eq_true_eq] at hv2
    obtain ⟨h1, h2, h3, h4⟩ := hv2
    simp only [apply_j_cut]
    rw [if_neg (by omega), if_neg (by omega), if_neg (by omega), if_neg (by omega)]
    by_cases hdr : dr = true
    · subst hdr
      simp
    · have hdrf : dr = false := by
        cases dr
        · rfl
        · exact absurd rfl hdr
      subst hdrf
      by_cases hr : r = b.clip_pair_after.audio_clip
      · subst hr
        simp [set_clip_property, jNewClip, hv]
      · simp [set_clip_property, hr]
  · rw [if_neg (by simp [hv])]
    rw [jValidB, decide_eq_true_eq] at hv
    push_neg at hv
    simp only [apply_j_cut]
    split_ifs with h1 h2 h3 h4 <;> first | rfl | (exfalso; omega)

theorem apply_l_cut_store (σ : Store) (b : Boundary) (o : Int) (dr : Bool) (r : ClipRef) :
    (apply_l_cut σ b o dr).1 r =
      if r = b.clip_pair_before.audio_clip ∧ dr = false ∧
          lValidB (σ b.clip_pair_before.audio_clip) o = true
      then lNewClip (σ b.clip_pair_before.audio_clip) o
      else σ r := by
  by_cases hv : lValidB (σ b.clip_pair_before.audio_clip) o = true
  · have hv2 := hv
    rw [lValidB, decide_eq_true_eq] at hv2
    obtain ⟨h1, h2⟩ := hv2
    simp only [apply_l_cut]
    rw [if_neg (by omega), if_neg (by omega)]
    by_cases hdr : dr = true
    · subst hdr
      simp
    · have hdrf : dr = false := by
        cases dr
        · rfl
        · exact absurd rfl hdr
      subst hdrf
      by_cases hr : r = b.clip_pair_before.audio_clip
      · subst hr
        simp [set_clip_property, lNewClip, hv]
      · simp [set_clip_property, hr]
  · rw [if_neg (by simp [hv])]
    rw [lValidB, decide_eq_true_eq] at hv
    push_neg at hv
    simp only [apply_l_cut]
    split_ifs with h1 h2 <;> first | rfl | (exfalso; omega)

theorem jNewClip_parse {c : Clip} {o : Int} (h : jValidB c o = true) :
    parse_int_property (jNewClip c o) "Start" 0 = parse_int_property c "Start" 0 - o ∧
    parse_int_property (jNewClip c o) "Duration" 0 = parse_int_property c "Duration" 0 + o ∧
    parse_int_property (jNewClip c o) "In" 0 = parse_int_property c "In" 0 - o := by
  rw [jValidB, decide_eq_true_eq] at h
  obtain ⟨h1, h2, h3, h4⟩ := h
  have hs : (findChild c.children "Start").isSome = true :=
    findChild_isSome_of_parse_pos (by omega)
  have hi : (findChild c.children "In").isSome = true :=
    findChild_isSome_of_parse_pos (by omega)
  have hd : (findChild c.children "Duration").isSome = true :=
    findChild_isSome_of_parse_pos (by omega)
  unfold jNewClip
  refine ⟨?_, ?_, ?_⟩
  · rw [parse_setChildText_other _ (show ("Start" : String) ≠ "In" by decide) 0,
      parse_setChildText_other _ (show ("Start" : String) ≠ "Duration" by decide) 0,
      parse_setChildText_same _ hs]
  · rw [parse_setChildText_other _ (show ("Duration" : String) ≠ "In" by decide) 0,
      parse_setChildText_same _ (by rw [findChild_setChildText_isSome]; exact hd)]
  · rw [parse_setChildText_same _
      (by rw [findChild_setChildText_isSome, findChild_setChildText_isSome]; exact hi)]

theorem lNewClip_parse {c : Clip} {o : Int} (h : lValidB c o = true) :
    parse_int_property (lNewClip c o) "Duration" 0 = parse_int_property c "Duration" 0 + o := by
  rw [lValidB, decide_eq_true_eq] at h
  have hd : (findChild c.children "Duration").isSome = true :=
    findChild_isSome_of_parse_pos (by omega)
  unfold lNewClip
  exact parse_setChildText_same _ hd

theorem lNewClip_get_other (c : Clip) (o : Int) {p : String} (h : p ≠ "Duration") :
    get_clip_property (lNewClip c o) p = get_clip_property c p :=
  get_setChildText_other _ h

/-! ### Claim theorems -/

/-- Claim C1: with a positive offset, `apply_j_cut` succeeds iff the after
pair's audio clip values satisfy `Start - o ≥ 0`, `In - o ≥ 0` and
`Duration ≥ o`; on success the audio clip's new `Start`, `Duration` and `In`
are `Start - o`, `Duration + o` and `In - o`. -/
theorem j_cut_success_iff_and_updates (σ : Store) (b : Boundary) (o : Int) (ho : 0 < o) :
    ((apply_j_cut σ b o false).2.1 = true ↔
      (0 ≤ parse_int_property (σ b.clip_pair_after.audio_clip) "Start" 0 - o ∧
       0 ≤ parse_int_property (σ b.clip_pair_after.audio_clip) "In" 0 - o ∧
       o ≤ parse_int_property (σ b.clip_pair_after.audio_clip) "Duration" 0)) ∧
    ((apply_j_cut σ b o false).2.1 = true →
      (parse_int_property ((apply_j_cut σ b o false).1 b.clip_pair_after.audio_clip) "Start" 0 =
        parse_int_property (σ b.clip_pair_after.audio_clip) "Start" 0 - o ∧
       parse_int_property ((apply_j_cut σ b o false).1 b.clip_pair_after.audio_clip) "Duration" 0 =
        parse_int_property (σ b.clip_pair_after.audio_clip) "Duration" 0 + o ∧
       parse_int_property ((apply_j_cut σ b o false).1 b.clip_pair_after.audio_clip) "In" 0 =
        parse_int_property (σ b.clip_pair_after.audio_clip) "In" 0 - o)) := by
  constructor
  · rw [apply_j_cut_verdict, jValidB, decide_eq_true_eq]
    constructor
    · rintro ⟨h1, h2, h3, h4⟩
      exact ⟨h2, h3, h4⟩
    · rintro ⟨h2, h3, h4⟩
      exact ⟨ho, h2, h3, h4⟩
  · intro hs
    rw [apply_j_cut_verdict] at hs
    have hst := apply_j_cut_store σ b o false b.clip_pair_after.audio_clip
    rw [if_pos ⟨rfl, rfl, hs⟩] at hst
    rw [hst]
    exact jNewClip_parse hs

/-- Witness for C1: boundary with after audio `Start` 100, `Duration` 50,
`In` 20 at offset 8. -/
theorem j_cut_success_iff_and_updates_witness :
    (0 : Int) < 8 ∧
    parse_int_property ((apply_j_cut wStore wBoundary 8 false).1 wBoundary.clip_pair_after.audio_clip) "Start" 0 =
      parse_int_property (wStore wBoundary.clip_pair_after.audio_clip) "Start" 0 - 8 := by
  have h := j_cut_success_iff_and_updates wStore wBoundary 8 (by decide)
  exact ⟨by decide, (h.2 (h.1.mpr (by decide))).1⟩

/-- Claim C2: with a positive offset, `apply_l_cut` succeeds iff the before
pair's audio clip has `Duration ≥ 1`; on success that clip's `Duration`
becomes `Duration + o` and every other property of every clip element is
unchanged. -/
theorem l_cut_success_iff_and_frame (σ : Store) (b : Boundary) (o : Int) (ho : 0 < o) :
    ((apply_l_cut σ b o false).2.1 = true ↔
      1 ≤ parse_int_property (σ b.clip_pair_before.audio_clip) "Duration" 0) ∧
    ((apply_l_cut σ b o false).2.1 = true →
      (parse_int_property ((apply_l_cut σ b o false).1 b.clip_pair_before.audio_clip) "Duration" 0 =
        parse_int_property (σ b.clip_pair_before.audio_clip) "Duration" 0 + o ∧
       ∀ (r : ClipRef) (p : String), (r ≠ b.clip_pair_before.audio_clip ∨ p ≠ "Duration") →
         get_clip_property ((apply_l_cut σ b o false).1 r) p = get_clip_property (σ r) p)) := by
  constructor
  · rw [apply_l_cut_verdict, lValidB, decide_eq_true_eq]
    constructor
    · rintro ⟨h1, h2⟩
      exact h2
    · intro h2
      exact ⟨ho, h2⟩
  · intro hs
    rw [apply_l_cut_verdict] at hs
    constructor
    · have hst := apply_l_cut_store σ b o false b.clip_pair_before.audio_clip
      rw [if_pos ⟨rfl, rfl, hs⟩] at hst
      rw [hst]
      exact lNewClip_parse hs
    · intro r p hrp
      have hst := apply_l_cut_store σ b o false r
      by_cases hr : r = b.clip_pair_before.audio_clip
      · subst hr
        rcases hrp with h | h
        · exact absurd rfl h
        · rw [if_pos ⟨rfl, rfl, hs⟩] at hst
          rw [hst]
          exact lNewClip_get_other _ o h
      · rw [if_neg (by simp [hr])] at hst
        rw [hst]

/-- Witness for C2 at offset 8: duration grows from 50 to 58 and an
unrelated property of an unrelated element is untouched. -/
theorem l_cut_success_iff_and_frame_witness :
    (0 : Int) < 8 ∧
    parse_int_property ((apply_l_cut wStore wBoundary 8 false).1 wBoundary.clip_pair_before.audio_clip) "Duration" 0 =
      parse_int_property (wStore wBoundary.clip_pair_before.audio_clip) "Duration" 0 + 8 ∧
    get_clip_property ((apply_l_cut wStore wBoundary 8 false).1 7) "Start" = get_clip_property (wStore 7) "Start" := by
  have h := l_cut_success_iff_and_frame wStore wBoundary 8 (by decide)
  have hsucc : (apply_l_cut wStore wBoundary 8 false).2.1 = true := h.1.mpr (by decide)
  exact ⟨by decide, (h.2 hsucc).1, (h.2 hsucc).2 7 "Start" (Or.inr (by decide))⟩

/-- Claim C4: when either transform reports failure the store is unchanged
(failure is a returned result of a total function, never an exception), and a
successful non-dry `apply_j_cut` updates `Start`, `Duration` and `In`
together in the one returned store; there is no in-between state. -/
theorem cut_failure_no_mutation_success_atomic (σ : Store) (b : Boundary) (o : Int) (dr : Bool) :
    ((apply_j_cut σ b o dr).2.1 = false → (apply_j_cut σ b o dr).1 = σ) ∧
    ((apply_l_cut σ b o dr).2.1 = false → (apply_l_cut σ b o dr).1 = σ) ∧
    ((apply_j_cut σ b o false).2.1 = true →
      (parse_int_property ((apply_j_cut σ b o false).1 b.clip_pair_after.audio_clip) "Start" 0 =
        parse_int_property (σ b.clip_pair_after.audio_clip) "Start" 0 - o ∧
       parse_int_property ((apply_j_cut σ b o false).1 b.clip_pair_after.audio_clip) "Duration" 0 =
        parse_int_property (σ b.clip_pair_after.audio_clip) "Duration" 0 + o ∧
       parse_int_property ((apply_j_cut σ b o false).1 b.clip_pair_after.audio_clip) "In" 0 =
        parse_int_property (σ b.clip_pair_after.audio_clip) "In" 0 - o)) := by
  refine ⟨?_, ?_, ?_⟩
  · intro hf
    rw [apply_j_cut_verdict] at hf
    funext r
    rw [apply_j_cut_store, if_neg (by simp [hf])]
  · intro hf
    rw [apply_l_cut_verdict] at hf
    funext r
    rw [apply_l_cut_store, if_neg (by simp [hf])]
  · intro hs
    rw [apply_j_cut_verdict] at hs
    have hst := apply_j_cut_store σ b o false b.clip_pair_after.audio_clip
    rw [if_pos ⟨rfl, rfl, hs⟩] at hst
    rw [hst]
    exact jNewClip_parse hs

/-- Witness for C4: a failing J-cut (negative offset) and a failing dry L-cut
leave the store untouched; a succeeding J-cut writes the shifted `In`. -/
theorem cut_failure_no_mutation_success_atomic_witness :
    (apply_j_cut wStore wBoundary (-1) false).1 = wStore ∧
    (apply_l_cut wStore wBoundary (-1) true).1 = wStore ∧
    parse_int_property ((apply_j_cut wStore wBoundary 8 false).1 wBoundary.clip_pair_after.audio_clip) "In" 0 =
      parse_int_property (wStore wBoundary.clip_pair_after.audio_clip) "In" 0 - 8 :=
  ⟨(cut_failure_no_mutation_success_atomic wStore wBoundary (-1) false).1 (by decide),
   (cut_failure_no_mutation_success_atomic wStore wBoundary (-1) true).2.1 (by decide),
   ((cut_failure_no_mutation_success_atomic wStore wBoundary 8 false).2.2 (by decide)).2.2⟩

/-- Claim C7: a dry-run call never mutates the store and returns the same
success/failure verdict as the live call on an identical boundary and offset. -/
theorem dry_run_no_mutation_same_verdict (σ : Store) (b : Boundary) (o : Int) :
    (apply_j_cut σ b o true).1 = σ ∧
    (apply_l_cut σ b o true).1 = σ ∧
    (apply_j_cut σ b o true).2.1 = (apply_j_cut σ b o false).2.1 ∧
    (apply_l_cut σ b o true).2.1 = (apply_l_cut σ b o false).2.1 := by
  refine ⟨?_, ?_, ?_, ?_⟩
  · funext r
    rw [apply_j_cut_store, if_neg (by simp)]
  · funext r
    rw [apply_l_cut_store, if_neg (by simp)]
  · rw [apply_j_cut_verdict, apply_j_cut_verdict]
  · rw [apply_l_cut_verdict, apply_l_cut_verdict]

/-- Counterexample to claim C5 as stated: an L-cut on a clip whose `Start` is
already negative succeeds and leaves the mutated clip item with a negative
`Start`. -/
theorem l_cut_negative_start_counterexample :
    (apply_l_cut negStore negBoundary 1 false).2.1 = true ∧
    parse_int_property ((apply_l_cut negStore negBoundary 1 false).1 negBoundary.clip_pair_before.audio_clip) "Start" 0 < 0 :=
  ⟨by decide, by decide⟩

/-- Claim C5 amended: after a successful non-dry mutation every property the
transform writes is non-negative, and properties it does not write are
unchanged; hence a J-cut target always ends non-negative, and an L-cut target
ends non-negative provided its `Start` and `In` were non-negative before. -/
theorem successful_cut_writes_nonneg (σ : Store) (b : Boundary) (o : Int) :
    ((apply_j_cut σ b o false).2.1 = true →
      (0 ≤ parse_int_property ((apply_j_cut σ b o false).1 b.clip_pair_after.audio_clip) "Start" 0 ∧
       0 ≤ parse_int_property ((apply_j_cut σ b o false).1 b.clip_pair_after.audio_clip) "Duration" 0 ∧
       0 ≤ parse_int_property ((apply_j_cut σ b o false).1 b.clip_pair_after.audio_clip) "In" 0)) ∧
    ((apply_l_cut σ b o false).2.1 = true →
      0 ≤ parse_int_property (σ b.clip_pair_before.audio_clip) "Start" 0 →
      0 ≤ parse_int_property (σ b.clip_pair_before.audio_clip) "In" 0 →
      (0 ≤ parse_int_property ((apply_l_cut σ b o false).1 b.clip_pair_before.audio_clip) "Start" 0 ∧
       0 ≤ parse_int_property ((apply_l_cut σ b o false).1 b.clip_pair_before.audio_clip) "Duration" 0 ∧
       0 ≤ parse_int_property ((apply_l_cut σ b o false).1 b.clip_pair_before.audio_clip) "In" 0)) := by
  constructor
  · intro hs
    rw [apply_j_cut_verdict] at hs
    have hst := apply_j_cut_store σ b o false b.clip_pair_after.audio_clip
    rw [if_pos ⟨rfl, rfl, hs⟩] at hst
    rw [hst]
    have hp := jNewClip_parse hs
    rw [jValidB, decide_eq_true_eq] at hs
    rw [hp.1, hp.2.1, hp.2.2]
    refine ⟨by omega, by omega, by omega⟩
  · intro hs hstart hin
    rw [apply_l_cut_verdict] at hs
    have hst := apply_l_cut_store σ b o false b.clip_pair_before.audio_clip
    rw [if_pos ⟨rfl, rfl, hs⟩] at hst
    rw [hst]
    have hp := lNewClip_parse hs
    have hgs := lNewClip_get_other (σ b.clip_pair_before.audio_clip) o
      (show ("Start" : String) ≠ "Duration" by decide)
    have hgi := lNewClip_get_other (σ b.clip_pair_before.audio_clip) o
      (show ("In" : String) ≠ "Duration" by decide)
    rw [hp, parse_congr hgs 0, parse_congr hgi 0]
    rw [lValidB, decide_eq_true_eq] at hs
    exact ⟨hstart, by omega, hin⟩

/-- Witness for the amended C5 at offset 8. -/
theorem successful_cut_writes_nonneg_witness :
    0 ≤ parse_int_property ((apply_j_cut wStore wBoundary 8 false).1 wBoundary.clip_pair_after.audio_clip) "Start" 0 ∧
    0 ≤ parse_int_property ((apply_l_cut wStore wBoundary 8 false).1 wBoundary.clip_pair_before.audio_clip) "Duration" 0 := by
  have h := successful_cut_writes_nonneg wStore wBoundary 8
  exact ⟨(h.1 (by decide)).1, (h.2 (by decide) (by decide) (by decide)).2.1⟩

/-- Counterexample to claim C6 as stated: both pairs of `mismatchBoundary`
are aligned and `validate_boundary_for_offset` accepts offset 8, but the
after-pair snapshot `start` (100) is stale with respect to the clip's current
`Start` (0), so `apply_j_cut` fails. -/
theorem validate_vs_transform_counterexample :
    is_aligned mismatchStore mismatchBoundary.clip_pair_before = true ∧
    is_aligned mismatchStore mismatchBoundary.clip_pair_after = true ∧
    (0 : Int) < 8 ∧
    (validate_boundary_for_offset mismatchStore mismatchBoundary 8).1 = true ∧
    (apply_j_cut mismatchStore mismatchBoundary 8 false).2.1 = false :=
  ⟨by decide, by decide, by decide, by decide, by decide⟩

/-- Claim C6 amended: for a boundary whose pairs are both aligned and whose
after-pair snapshot `start` and `duration` agree with the current properties
of its video clip (as holds for pairs built by `find_clip_pairs`), every
positive offset accepted by `validate_boundary_for_offset` is also accepted
by `apply_j_cut`. -/
theorem validate_implies_j_cut_success (σ : Store) (b : Boundary) (o : Int) (dr : Bool)
    (ho : 0 < o)
    (hba : is_aligned σ b.clip_pair_before = true)
    (haa : is_aligned σ b.clip_pair_after = true)
    (hstart : b.clip_pair_after.start = parse_int_property (σ b.clip_pair_after.video_clip) "Start" 0)
    (hdur : b.clip_pair_after.duration = parse_int_property (σ b.clip_pair_after.video_clip) "Duration" 0)
    (hv : (validate_boundary_for_offset σ b o).1 = true) :
    (apply_j_cut σ b o dr).2.1 = true := by
  simp only [is_aligned, decide_eq_true_eq] at haa
  obtain ⟨ha1, ha2, ha3⟩ := haa
  simp only [validate_boundary_for_offset] at hv
  split_ifs at hv with h1 h2 h3 h4 <;>
    first
      | exact absurd hv Bool.false_ne_true
      | (rw [apply_j_cut_verdict, jValidB, decide_eq_true_eq]
         exact ⟨ho, by omega, by omega, by omega⟩)

/-- Witness for the amended C6 on a boundary with a fresh snapshot. -/
theorem validate_implies_j_cut_success_witness :
    (apply_j_cut consistentStore consistentBoundary 8 false).2.1 = true :=
  validate_implies_j_cut_success consistentStore consistentBoundary 8 false
    (by decide) (by decide) (by decide) (by decide) (by decide) (by decide)

/-- Claim C3: `find_eligible_boundaries` produces exactly the boundaries of
those consecutive pair indices where both pairs are aligned and the gap
`P[i+1].Start - (P[i].Start + P[i].Duration)` lies in `[0, G]`; in particular
no boundary with a negative gap (overlap) or a gap above `G` is produced. -/
theorem eligible_boundaries_characterization (σ : Store) (pairs : List ClipPair) (G : Int)
    (b : Boundary) :
    b ∈ find_eligible_boundaries σ pairs G ↔
      ∃ (i : Nat) (p q : ClipPair), pairs[i]? = some p ∧ pairs[i + 1]? = some q ∧
        is_aligned σ p = true ∧ is_aligned σ q = true ∧
        0 ≤ q.start - (p.start + p.duration) ∧ q.start - (p.start + p.duration) ≤ G ∧
        b = ⟨p, q, p.start + p.duration⟩ := by
  induction pairs with
  | nil =>
    constructor
    · intro hb
      simp [find_eligible_boundaries] at hb
    · rintro ⟨i, p, q, hp, hq, _⟩
      simp at hp
  | cons p0 tail ih =>
    cases tail with
    | nil =>
      constructor
      · intro hb
        simp [find_eligible_boundaries] at hb
      · rintro ⟨i, p, q, hp, hq, _⟩
        rcases i with _ | j <;> simp at hq
    | cons q0 rest =>
      have hshift : b ∈ find_eligible_boundaries σ (q0 :: rest) G →
          ∃ (i : Nat) (p q : ClipPair), (p0 :: q0 :: rest)[i]? = some p ∧
            (p0 :: q0 :: rest)[i + 1]? = some q ∧
            is_aligned σ p = true ∧ is_aligned σ q = true ∧
            0 ≤ q.start - (p.start + p.duration) ∧ q.start - (p.start + p.duration) ≤ G ∧
            b = ⟨p, q, p.start + p.duration⟩ := by
        intro hbT
        obtain ⟨j, p, q, hp, hq, h1, h2, h3, h4, h5⟩ := ih.mp hbT
        exact ⟨j + 1, p, q, by simpa using hp, by simpa using hq, h1, h2, h3, h4, h5⟩
      constructor
      · intro hb
        simp only [find_eligible_boundaries] at hb
        by_cases hA : is_aligned σ p0 = true
        · rw [if_pos hA] at hb
          by_cases hB : is_aligned σ q0 = true
          · rw [if_pos hB] at hb
            by_cases hC : 0 ≤ q0.start - (p0.start + p0.duration) ∧
                q0.start - (p0.start + p0.duration) ≤ G
            · rw [if_pos hC] at hb
              rcases List.mem_cons.mp hb with hb0 | hbT
              · exact ⟨0, p0, q0, by simp, by simp, hA, hB, hC.1, hC.2, hb0⟩
              · exact hshift hbT
            · rw [if_neg hC] at hb
              exact hshift hb
          · rw [if_neg hB] at hb
            exact hshift hb
        · rw [if_neg hA] at hb
          exact hshift hb
      · rintro ⟨i, p, q, hp, hq, h1, h2, h3, h4, h5⟩
        simp only [find_eligible_boundaries]
        rcases i with _ | j
        · simp only [List.getElem?_cons_succ, List.getElem?_cons_zero, Option.some.injEq] at hp hq
          subst hp
          subst hq
          rw [if_pos h1, if_pos h2, if_pos ⟨h3, h4⟩, h5]
          exact List.mem_cons_self _ _
        · have hbT : b ∈ find_eligible_boundaries σ (q0 :: rest) G :=
            ih.mpr ⟨j, p, q, by simpa using hp, by simpa using hq, h1, h2, h3, h4, h5⟩
          split_ifs <;> first | exact List.mem_cons_of_mem _ hbT | exact hbT

/-! ### Batch accounting -/

theorem verdictCount_le_length (cf : Store → Boundary → Store × Bool × String) :
    ∀ (bs : List Boundary) (σ : Store), verdictCount cf σ bs ≤ bs.length := by
  intro bs
  induction bs with
  | nil =>
    intro σ
    simp [verdictCount]
  | cons b rest ih =>
    intro σ
    simp only [verdictCount, List.length_cons]
    have h := ih (cf σ b).1
    split_ifs <;> omega

theorem applyCutsLoop_counts (cf : Store → Boundary → Store × Bool × String) :
    ∀ (bs : List Boundary) (σ : Store) (i : Nat) (acc : CutResults),
      (applyCutsLoop cf σ bs i acc).2.success_count = acc.success_count + verdictCount cf σ bs ∧
      (applyCutsLoop cf σ bs i acc).2.fail_count =
        acc.fail_count + (bs.length - verdictCount cf σ bs) := by
  intro bs
  induction bs with
  | nil =>
    intro σ i acc
    simp [applyCutsLoop, verdictCount]
  | cons b rest ih =>
    intro σ i acc
    have hle := verdictCount_le_length cf rest (cf σ b).1
    simp only [applyCutsLoop, verdictCount, List.length_cons]
    by_cases hv : (cf σ b).2.1 = true
    · rw [if_pos hv, if_pos hv]
      obtain ⟨hs, hf⟩ := ih (cf σ b).1 (i + 1)
        ⟨acc.success_count + 1, acc.fail_count,
         acc.messages ++ ["  ✓ Boundary " ++ natToStr (i + 1) ++ ": " ++ (cf σ b).2.2],
         acc.successful_boundaries ++ [b]⟩
      rw [hs, hf]
      dsimp only
      constructor
      · omega
      · omega
    · rw [if_neg hv, if_neg hv]
      obtain ⟨hs, hf⟩ := ih (cf σ b).1 (i + 1)
        ⟨acc.success_count, acc.fail_count + 1,
         acc.messages ++ ["  ✗ Boundary " ++ natToStr (i + 1) ++ ": " ++ (cf σ b).2.2],
         acc.successful_boundaries⟩
      rw [hs, hf]
      dsimp only
      constructor
      · omega
      · omega

/-- Permutation invariance of the per-boundary verdict count and of the final
store, for any step that reads and writes only the store cell of its target
reference and whose behaviour is determined by that target reference. -/
theorem verdictCount_runStore_perm
    (cf : Store → Boundary → Store × Bool × String) (tgt : Boundary → ClipRef)
    (hframe : ∀ (σ : Store) (b : Boundary) (r : ClipRef), r ≠ tgt b → (cf σ b).1 r = σ r)
    (hlocal : ∀ (σ σ2 : Store) (b : Boundary), σ (tgt b) = σ2 (tgt b) →
      (cf σ b).2.1 = (cf σ2 b).2.1 ∧ (cf σ b).1 (tgt b) = (cf σ2 b).1 (tgt b))
    (htgt : ∀ (σ : Store) (b b2 : Boundary), tgt b = tgt b2 →
      (cf σ b).2.1 = (cf σ b2).2.1 ∧ (cf σ b).1 (tgt b) = (cf σ b2).1 (tgt b))
    {bs bs2 : List Boundary} (hperm : bs.Perm bs2) :
    ∀ σ : Store, verdictCount cf σ bs = verdictCount cf σ bs2 ∧
      runStore cf σ bs = runStore cf σ bs2 := by
  induction hperm with
  | nil =>
    intro σ
    exact ⟨rfl, rfl⟩
  | cons x p ih =>
    intro σ
    simp only [verdictCount, runStore]
    obtain ⟨h1, h2⟩ := ih (cf σ x).1
    rw [h1, h2]
    exact ⟨rfl, rfl⟩
  | swap x y t =>
    intro σ
    have hkey :
        ((if (cf σ y).2.1 = true then (1 : Nat) else 0) +
            (if (cf (cf σ y).1 x).2.1 = true then (1 : Nat) else 0)
          = (if (cf σ x).2.1 = true then (1 : Nat) else 0) +
            (if (cf (cf σ x).1 y).2.1 = true then (1 : Nat) else 0)) ∧
        (cf (cf σ y).1 x).1 = (cf (cf σ x).1 y).1 := by
      by_cases heq : tgt x = tgt y
      · -- shared target: the two steps are the same store transformer
        have hxy : (cf σ x).1 = (cf σ y).1 := by
          funext r
          by_cases hr : r = tgt x
          · subst hr
            exact (htgt σ x y heq).2
          · rw [hframe σ x r hr, hframe σ y r (by rw [← heq]; exact hr)]
        have hv1 : (cf σ x).2.1 = (cf σ y).2.1 := (htgt σ x y heq).1
        have hv2 : (cf (cf σ y).1 x).2.1 = (cf (cf σ y).1 y).2.1 :=
          (htgt (cf σ y).1 x y heq).1
        constructor
        · rw [hv1, hv2, hxy]
        · funext r
          rw [hxy]
          by_cases hr : r = tgt x
          · subst hr
            exact (htgt (cf σ y).1 x y heq).2
          · rw [hframe (cf σ y).1 x r hr, hframe (cf σ y).1 y r (by rw [← heq]; exact hr)]
      · -- distinct targets: the two steps commute cell by cell
        have hyx_at_x : (cf σ y).1 (tgt x) = σ (tgt x) := hframe σ y (tgt x) heq
        have hxy_at_y : (cf σ x).1 (tgt y) = σ (tgt y) :=
          hframe σ x (tgt y) (fun h => heq h.symm)
        have hv2 : (cf (cf σ y).1 x).2.1 = (cf σ x).2.1 :=
          (hlocal (cf σ y).1 σ x hyx_at_x).1
        have hv1 : (cf (cf σ x).1 y).2.1 = (cf σ y).2.1 :=
          (hlocal (cf σ x).1 σ y hxy_at_y).1
        constructor
        · rw [hv1, hv2]
          omega
        · funext r
          by_cases hrx : r = tgt x
          · subst hrx
            rw [(hlocal (cf σ y).1 σ x hyx_at_x).2,
              hframe (cf σ x).1 y (tgt x) heq]
          · by_cases hry : r = tgt y
            · subst hry
              rw [hframe (cf σ y).1 x (tgt y) (fun h => heq h.symm),
                (hlocal (cf σ x).1 σ y hxy_at_y).2]
            · rw [hframe (cf σ y).1 x r hrx, hframe σ y r hry,
                hframe (cf σ x).1 y r hry, hframe σ x r hrx]
    obtain ⟨V, S⟩ := hkey
    simp only [verdictCount, runStore]
    rw [S]
    exact ⟨by omega, rfl⟩
  | trans p1 p2 ih1 ih2 =>
    intro σ
    exact ⟨(ih1 σ).1.trans (ih2 σ).1, (ih1 σ).2.trans (ih2 σ).2⟩

theorem j_step_frame (o : Int) (dr : Bool) (σ : Store) (b : Boundary) (r : ClipRef)
    (hr : r ≠ b.clip_pair_after.audio_clip) : (apply_j_cut σ b o dr).1 r = σ r := by
  rw [apply_j_cut_store, if_neg (by simp [hr])]

theorem j_step_local (o : Int) (dr : Bool) (σ σ2 : Store) (b : Boundary)
    (h : σ b.clip_pair_after.audio_clip = σ2 b.clip_pair_after.audio_clip) :
    (apply_j_cut σ b o dr).2.1 = (apply_j_cut σ2 b o dr).2.1 ∧
    (apply_j_cut σ b o dr).1 b.clip_pair_after.audio_clip =
      (apply_j_cut σ2 b o dr).1 b.clip_pair_after.audio_clip := by
  constructor
  · rw [apply_j_cut_verdict, apply_j_cut_verdict, h]
  · rw [apply_j_cut_store, apply_j_cut_store, h]

theorem j_step_tgt (o : Int) (dr : Bool) (σ : Store) (b b2 : Boundary)
    (h : b.clip_pair_after.audio_clip = b2.clip_pair_after.audio_clip) :
    (apply_j_cut σ b o dr).2.1 = (apply_j_cut σ b2 o dr).2.1 ∧
    (apply_j_cut σ b o dr).1 b.clip_pair_after.audio_clip =
      (apply_j_cut σ b2 o dr).1 b.clip_pair_after.audio_clip := by
  constructor
  · rw [apply_j_cut_verdict, apply_j_cut_verdict, h]
  · rw [apply_j_cut_store, apply_j_cut_store, h]

theorem l_step_frame (o : Int) (dr : Bool) (σ : Store) (b : Boundary) (r : ClipRef)
    (hr : r ≠ b.clip_pair_before.audio_clip) : (apply_l_cut σ b o dr).1 r = σ r := by
  rw [apply_l_cut_store, if_neg (by simp [hr])]

theorem l_step_local (o : Int) (dr : Bool) (σ σ2 : Store) (b : Boundary)
    (h : σ b.clip_pair_before.audio_clip = σ2 b.clip_pair_before.audio_clip) :
    (apply_l_cut σ b o dr).2.1 = (apply_l_cut σ2 b o dr).2.1 ∧
    (apply_l_cut σ b o dr).1 b.clip_pair_before.audio_clip =
      (apply_l_cut σ2 b o dr).1 b.clip_pair_before.audio_clip := by
  constructor
  · rw [apply_l_cut_verdict, apply_l_cut_verdict, h]
  · rw [apply_l_cut_store, apply_l_cut_store, h]

theorem l_step_tgt (o : Int) (dr : Bool) (σ : Store) (b b2 : Boundary)
    (h : b.clip_pair_before.audio_clip = b2.clip_pair_before.audio_clip) :
    (apply_l_cut σ b o dr).2.1 = (apply_l_cut σ b2 o dr).2.1 ∧
    (apply_l_cut σ b o dr).1 b.clip_pair_before.audio_clip =
      (apply_l_cut σ b2 o dr).1 b.clip_pair_before.audio_clip := by
  constructor
  · rw [apply_l_cut_verdict, apply_l_cut_verdict, h]
  · rw [apply_l_cut_store, apply_l_cut_store, h]

/-- Claim C8: `apply_cuts_to_timeline` run on any permutation of the boundary
list yields the same `success_count` and `fail_count` as the original order,
for any offset, cut kind and dry-run flag. -/
theorem batch_counts_permutation_invariant (σ : Store) (bs bs2 : List Boundary)
    (hperm : bs.Perm bs2) (o : Int) (ct : String) (dr : Bool) :
    (apply_cuts_to_timeline σ bs o ct dr).2.success_count =
      (apply_cuts_to_timeline σ bs2 o ct dr).2.success_count ∧
    (apply_cuts_to_timeline σ bs o ct dr).2.fail_count =
      (apply_cuts_to_timeline σ bs2 o ct dr).2.fail_count := by
  have hlen : bs.length = bs2.length := hperm.length_eq
  simp only [apply_cuts_to_timeline]
  by_cases hct : pyUpper ct = "J"
  · rw [if_pos hct]
    have hv := verdictCount_runStore_perm
      (fun σ2 b => apply_j_cut σ2 b o dr) (fun b => b.clip_pair_after.audio_clip)
      (fun σ2 b r hr => j_step_frame o dr σ2 b r hr)
      (fun σ2 σ3 b h => j_step_local o dr σ2 σ3 b h)
      (fun σ2 b b2 h => j_step_tgt o dr σ2 b b2 h)
      hperm σ
    obtain ⟨hc1, _⟩ := hv
    obtain ⟨hs1, hf1⟩ := applyCutsLoop_counts _ bs σ 0 ⟨0, 0, [], []⟩
    obtain ⟨hs2, hf2⟩ := applyCutsLoop_counts _ bs2 σ 0 ⟨0, 0, [], []⟩
    rw [hs1, hs2, hf1, hf2]
    dsimp only
    rw [hc1, hlen]
    exact ⟨rfl, rfl⟩
  · rw [if_neg hct]
    have hv := verdictCount_runStore_perm
      (fun σ2 b => apply_l_cut σ2 b o dr) (fun b => b.clip_pair_before.audio_clip)
      (fun σ2 b r hr => l_step_frame o dr σ2 b r hr)
      (fun σ2 σ3 b h => l_step_local o dr σ2 σ3 b h)
      (fun σ2 b b2 h => l_step_tgt o dr σ2 b b2 h)
      hperm σ
    obtain ⟨hc1, _⟩ := hv
    obtain ⟨hs1, hf1⟩ := applyCutsLoop_counts _ bs σ 0 ⟨0, 0, [], []⟩
    obtain ⟨hs2, hf2⟩ := applyCutsLoop_counts _ bs2 σ 0 ⟨0, 0, [], []⟩
    rw [hs1, hs2, hf1, hf2]
    dsimp only
    rw [hc1, hlen]
    exact ⟨rfl, rfl⟩

/-- Witness for C8: swapping two concrete boundaries leaves both counts
unchanged. -/
theorem batch_counts_permutation_invariant_witness :
    (apply_cuts_to_timeline wStore [wBoundary, wBoundary2] 8 "J" false).2.success_count =
      (apply_cuts_to_timeline wStore [wBoundary2, wBoundary] 8 "J" false).2.success_count ∧
    (apply_cuts_to_timeline wStore [wBoundary, wBoundary2] 8 "J" false).2.fail_count =
      (apply_cuts_to_timeline wStore [wBoundary2, wBoundary] 8 "J" false).2.fail_count :=
  batch_counts_permutation_invariant wStore [wBoundary, wBoundary2] [wBoundary2, wBoundary]
    (List.Perm.swap wBoundary2 wBoundary []) 8 "J" false

/-- Claim C9: any cut kind whose uppercase form is not exactly `J` (such as
`X` or the empty string) makes `apply_cuts_to_timeline` behave exactly as cut
kind `L` on every boundary; no boundary is rejected for an unknown kind, so
every boundary is accounted as a success or a failure. -/
theorem unknown_cut_type_behaves_as_l (σ : Store) (bs : List Boundary) (o : Int)
    (ct : String) (dr : Bool) (hct : pyUpper ct ≠ "J") :
    apply_cuts_to_timeline σ bs o ct dr = apply_cuts_to_timeline σ bs o "L" dr ∧
    (apply_cuts_to_timeline σ bs o ct dr).2.success_count +
      (apply_cuts_to_timeline σ bs o ct dr).2.fail_count = bs.length := by
  have hL : pyUpper "L" ≠ "J" := by decide
  constructor
  · simp only [apply_cuts_to_timeline]
    rw [if_neg hct, if_neg hL]
  · simp only [apply_cuts_to_timeline]
    rw [if_neg hct]
    obtain ⟨hs, hf⟩ := applyCutsLoop_counts
      (fun σ2 b => apply_l_cut σ2 b o dr) bs σ 0 ⟨0, 0, [], []⟩
    rw [hs, hf]
    dsimp only
    have := verdictCount_le_length (fun σ2 b => apply_l_cut σ2 b o dr) bs σ
    omega

/-- Witness for C9 with the invalid kind `X`. -/
theorem unknown_cut_type_behaves_as_l_witness :
    apply_cuts_to_timeline wStore [wBoundary] 8 "X" false =
      apply_cuts_to_timeline wStore [wBoundary] 8 "L" false ∧
    (apply_cuts_to_timeline wStore [wBoundary] 8 "X" false).2.success_count +
      (apply_cuts_to_timeline wStore [wBoundary] 8 "X" false).2.fail_count = 1 :=
  unknown_cut_type_behaves_as_l wStore [wBoundary] 8 "X" false (by decide)

/-! ### Clip-pair matching lemmas -/

theorem dictGet_dictInsert (d : List (MatchKey × ClipRef)) (k kq : MatchKey) (v : ClipRef) :
    dictGet (dictInsert d k v) kq = if k = kq then some v else dictGet d kq := by
  induction d with
  | nil => rfl
  | cons e rest ih =>
    obtain ⟨ke, ve⟩ := e
    by_cases hek : ke = k
    · subst hek
      by_cases hq : ke = kq
      · simp [dictInsert, dictGet, hq]
      · simp [dictInsert, dictGet, hq]
    · by_cases hq : ke = kq
      · subst hq
        have hkq : ¬ k = ke := fun hh => hek hh.symm
        simp [dictInsert, dictGet, hek, hkq]
      · simp [dictInsert, dictGet, hek, hq, ih]

theorem buildAudioLookup_isSome (σ : Store) (k : MatchKey) :
    ∀ (audios : List ClipRef) (d : List (MatchKey × ClipRef)),
      ((∃ a ∈ audios, clipKey (σ a) = k) ∨ (dictGet d k).isSome = true) →
      (dictGet (audios.foldl (fun d2 a => dictInsert d2 (clipKey (σ a)) a) d) k).isSome = true := by
  intro audios
  induction audios with
  | nil =>
    intro d h
    rcases h with h | h
    · simp at h
    · simpa using h
  | cons a rest ih =>
    intro d h
    simp only [List.foldl_cons]
    apply ih
    by_cases hk : clipKey (σ a) = k
    · right
      rw [dictGet_dictInsert, if_pos hk]
      rfl
    · rcases h with h | h
      · rcases h with ⟨a2, ha2, hk2⟩
        rcases List.mem_cons.mp ha2 with rfl | ha2t
        · exact absurd hk2 hk
        · exact Or.inl ⟨a2, ha2t, hk2⟩
      · right
        rw [dictGet_dictInsert, if_neg hk]
        exact h

theorem mem_insertByStart (x p : ClipPair) :
    ∀ l : List ClipPair, x ∈ insertByStart p l ↔ x = p ∨ x ∈ l := by
  intro l
  induction l with
  | nil => simp [insertByStart]
  | cons q rest ih =>
    simp only [insertByStart]
    split_ifs with h
    · simp only [List.mem_cons, ih]
      tauto
    · simp only [List.mem_cons]

theorem mem_sortByStart (x : ClipPair) : ∀ l : List ClipPair, x ∈ sortByStart l ↔ x ∈ l := by
  intro l
  induction l with
  | nil => simp [sortByStart]
  | cons p rest ih =>
    show x ∈ insertByStart p (sortByStart rest) ↔ _
    rw [mem_insertByStart, ih, List.mem_cons]

theorem find_clip_pairs_mem_of (σ : Store) (videos audios : List ClipRef) (v a0 : ClipRef)
    (hv : v ∈ videos)
    (ha0 : dictGet (buildAudioLookup σ audios) (clipKey (σ v)) = some a0) :
    (⟨v, a0, (get_clip_property (σ v) "Name").getD "", parse_int_property (σ v) "Start" 0,
      parse_int_property (σ v) "Duration" 0, parse_int_property (σ v) "In" 0,
      (get_clip_property (σ v) "MediaRef").getD ""⟩ : ClipPair) ∈
      find_clip_pairs σ videos audios := by
  simp only [find_clip_pairs]
  rw [mem_sortByStart]
  apply List.mem_filterMap.mpr
  refine ⟨v, hv, ?_⟩
  dsimp only
  unfold clipKey at ha0
  rw [ha0]

/-- Claim C10: two distinct video clip elements sharing one `(Name, MediaRef,
Start)` key, together with some audio element under that key, make
`find_clip_pairs` emit two distinct clip pairs whose `audio_clip` fields
reference the same element; a cut transform mutating one pair's audio
therefore also changes the other pair's audio. -/
theorem duplicate_key_pairs_share_audio (σ : Store) (videos audios : List ClipRef)
    (v1 v2 a : ClipRef) (hv1 : v1 ∈ videos) (hv2 : v2 ∈ videos) (hne : v1 ≠ v2)
    (hkey : clipKey (σ v1) = clipKey (σ v2))
    (ha : a ∈ audios) (hak : clipKey (σ a) = clipKey (σ v1)) :
    ∃ p1 p2 : ClipPair,
      p1 ∈ find_clip_pairs σ videos audios ∧ p2 ∈ find_clip_pairs σ videos audios ∧
      p1 ≠ p2 ∧ p1.video_clip = v1 ∧ p2.video_clip = v2 ∧
      p1.audio_clip = p2.audio_clip ∧
      (∀ (o : Int) (bnd : Boundary), bnd.clip_pair_before = p1 →
        (apply_l_cut σ bnd o false).2.1 = true →
        parse_int_property ((apply_l_cut σ bnd o false).1 p2.audio_clip) "Duration" 0 =
          parse_int_property (σ p2.audio_clip) "Duration" 0 + o) := by
  have hsome : (dictGet (buildAudioLookup σ audios) (clipKey (σ v1))).isSome = true := by
    unfold buildAudioLookup
    exact buildAudioLookup_isSome σ (clipKey (σ v1)) audios [] (Or.inl ⟨a, ha, hak⟩)
  obtain ⟨a0, ha0⟩ := Option.isSome_iff_exists.mp hsome
  have ha02 : dictGet (buildAudioLookup σ audios) (clipKey (σ v2)) = some a0 := by
    rw [← hkey]
    exact ha0
  refine ⟨⟨v1, a0, (get_clip_property (σ v1) "Name").getD "",
      parse_int_property (σ v1) "Start" 0, parse_int_property (σ v1) "Duration" 0,
      parse_int_property (σ v1) "In" 0, (get_clip_property (σ v1) "MediaRef").getD ""⟩,
    ⟨v2, a0, (get_clip_property (σ v2) "Name").getD "",
      parse_int_property (σ v2) "Start" 0, parse_int_property (σ v2) "Duration" 0,
      parse_int_property (σ v2) "In" 0, (get_clip_property (σ v2) "MediaRef").getD ""⟩,
    find_clip_pairs_mem_of σ videos audios v1 a0 hv1 ha0,
    find_clip_pairs_mem_of σ videos audios v2 a0 hv2 ha02,
    ?_, rfl, rfl, rfl, ?_⟩
  · intro hcontr
    exact hne (congrArg ClipPair.video_clip hcontr)
  · intro o bnd hb hsucc
    rw [apply_l_cut_verdict] at hsucc
    have hst := apply_l_cut_store σ bnd o false bnd.clip_pair_before.audio_clip
    rw [if_pos ⟨rfl, rfl, hsucc⟩] at hst
    have htr : bnd.clip_pair_before.audio_clip = a0 := by rw [hb]
    rw [htr] at hst hsucc
    show parse_int_property ((apply_l_cut σ bnd o false).1 a0) "Duration" 0 =
      parse_int_property (σ a0) "Duration" 0 + o
    rw [hst]
    exact lNewClip_parse hsucc

/-- Witness for C10: videos 0 and 1 share the key of audio 2; the pairs both
reference audio 2, and an L-cut through the first pair's boundary changes the
duration read through the second pair's audio reference. -/
theorem duplicate_key_pairs_share_audio_witness :
    parse_int_property
      ((apply_l_cut wStore ⟨⟨0, 2, "c", 100, 50, 20, "m"⟩, wPair, 0⟩ 8 false).1 2)
      "Duration" 0 = parse_int_property (wStore 2) "Duration" 0 + 8 := by
  obtain ⟨p1, p2, hm1, hm2, hnep, hid1, hid2, hshared, hmut⟩ :=
    duplicate_key_pairs_share_audio wStore [0, 1] [2] 0 1 2 (by decide) (by decide)
      (by decide) rfl (by decide) rfl
  have hlist : find_clip_pairs wStore [0, 1] [2] =
      [⟨0, 2, "c", 100, 50, 20, "m"⟩, ⟨1, 2, "c", 100, 50, 20, "m"⟩] := by decide
  rw [hlist] at hm1 hm2
  have hp1 : p1 = ⟨0, 2, "c", 100, 50, 20, "m"⟩ := by
    rcases List.mem_cons.mp hm1 with h | h
    · exact h
    · rcases List.mem_singleton.mp h with rfl
      simp at hid1
  have hp2 : p2 = ⟨1, 2, "c", 100, 50, 20, "m"⟩ := by
    rcases List.mem_cons.mp hm2 with h | h
    · rw [h] at hid2
      simp at hid2
    · exact List.mem_singleton.mp h
  subst hp1
  subst hp2
  exact hmut 8 ⟨⟨0, 2, "c", 100, 50, 20, "m"⟩, wPair, 0⟩ rfl (by decide)
